import Mathlib

/-!
Verification of the Price Analyzer backend (app/utils/price_normalizer.py,
app/services/scoring_service.py, app/services/mock_service.py, app/config.py).

The Python code is shallowly embedded: Python floats become exact rationals,
Python strings become lists of characters, and the builtin round(x, 2)
(round half to even) becomes an explicit half-even rounding on rationals.
Optional values become Option, Python dicts become association lists or
functions, and the random draws consumed by the mock data generator become
an explicit stream of rationals passed as an argument.
-/

namespace PriceAnalyzer

/-! ## Rounding: Python round(x, 2) as half-even rounding on rationals -/

/-- Round a rational to the nearest integer, ties to the even integer.
This models the behaviour of the Python builtin round on exact values. -/
def rndHalfEven (q : ℚ) : ℤ :=
  if q - ⌊q⌋ < 1/2 then ⌊q⌋
  else if 1/2 < q - ⌊q⌋ then ⌊q⌋ + 1
  else if Even ⌊q⌋ then ⌊q⌋ else ⌊q⌋ + 1

/-- Python round(q, 2): round half to even at two decimal places. -/
def round2 (q : ℚ) : ℚ := (rndHalfEven (q * 100) : ℚ) / 100

theorem rndHalfEven_cases (q : ℚ) :
    rndHalfEven q = ⌊q⌋ ∨ rndHalfEven q = ⌊q⌋ + 1 := by
  unfold rndHalfEven
  split_ifs <;> simp

theorem floor_le_rndHalfEven (q : ℚ) : ⌊q⌋ ≤ rndHalfEven q := by
  rcases rndHalfEven_cases q with h | h <;> omega

theorem rndHalfEven_le_floor_add_one (q : ℚ) : rndHalfEven q ≤ ⌊q⌋ + 1 := by
  rcases rndHalfEven_cases q with h | h <;> omega

theorem rndHalfEven_ub (q : ℚ) : (rndHalfEven q : ℚ) ≤ q + 1/2 := by
  unfold rndHalfEven
  split_ifs <;> push_cast <;>
    linarith [Int.floor_le q, Int.lt_floor_add_one q]

theorem rndHalfEven_lb (q : ℚ) : q - 1/2 ≤ (rndHalfEven q : ℚ) := by
  unfold rndHalfEven
  split_ifs <;> push_cast <;>
    linarith [Int.floor_le q, Int.lt_floor_add_one q]

theorem rndHalfEven_mono {x y : ℚ} (h : x ≤ y) :
    rndHalfEven x ≤ rndHalfEven y := by
  have hf : ⌊x⌋ ≤ ⌊y⌋ := Int.floor_mono h
  rcases lt_or_eq_of_le hf with hlt | heq
  · have h1 := rndHalfEven_le_floor_add_one x
    have h2 := floor_le_rndHalfEven y
    omega
  · have hxy : x - ⌊x⌋ ≤ y - ⌊y⌋ := by
      rw [← heq]
      linarith
    unfold rndHalfEven
    rw [← heq]
    split_ifs <;> first | omega | linarith

theorem round2_mono {x y : ℚ} (h : x ≤ y) : round2 x ≤ round2 y := by
  unfold round2
  have h1 : rndHalfEven (x * 100) ≤ rndHalfEven (y * 100) :=
    rndHalfEven_mono (by linarith)
  have h2 : ((rndHalfEven (x * 100) : ℚ)) ≤ (rndHalfEven (y * 100) : ℚ) := by
    exact_mod_cast h1
  linarith

theorem round2_lb (q : ℚ) : q - 1/200 ≤ round2 q := by
  unfold round2
  have := rndHalfEven_lb (q * 100)
  linarith

theorem round2_ub (q : ℚ) : round2 q ≤ q + 1/200 := by
  unfold round2
  have := rndHalfEven_ub (q * 100)
  linarith

theorem round2_zero : round2 0 = 0 := by
  norm_num [round2, rndHalfEven]

theorem round2_ten : round2 10 = 10 := by
  norm_num [round2, rndHalfEven]

theorem round2_nonneg {q : ℚ} (h : 0 ≤ q) : 0 ≤ round2 q := by
  have := round2_mono h
  rwa [round2_zero] at this

theorem round2_le_ten {q : ℚ} (h : q ≤ 10) : round2 q ≤ 10 := by
  have := round2_mono h
  rwa [round2_ten] at this

theorem round2_strict {x y : ℚ} (h : x + 1/20 ≤ y) : round2 x < round2 y := by
  have h1 := round2_ub x
  have h2 := round2_lb y
  linarith

/-- Clamping a value into the score range, as min(10, max(0, s)) in the code. -/
theorem clamp_nonneg (q : ℚ) : 0 ≤ min 10 (max 0 q) :=
  le_min (by norm_num) (le_max_left 0 q)

theorem clamp_le_ten (q : ℚ) : min 10 (max 0 q) ≤ 10 :=
  min_le_left 10 (max 0 q)

theorem clamp_eq_self {q : ℚ} (h0 : 0 ≤ q) (h1 : q ≤ 10) :
    min 10 (max 0 q) = q := by
  rw [max_eq_right h0, min_eq_right h1]

/-! ## Data model (app/models.py) -/

/-- ProductSource enum: supported e-commerce platforms. -/
inductive ProductSource
  | amazon
  | ebay
  | walmart
deriving DecidableEq

/-- The .value attribute of the str-backed ProductSource enum. -/
def ProductSource.value : ProductSource → String
  | .amazon => "amazon"
  | .ebay => "ebay"
  | .walmart => "walmart"

/-- Review model: an individual product review. -/
structure Review where
  text : String
  rating : ℚ
  author : Option String := none
  date : Option String := none
  verified : Bool := false
deriving DecidableEq

/-- SentimentAnalysis model: sentiment analysis result. -/
structure SentimentAnalysis where
  overall_sentiment : String
  sentiment_score : ℚ
  pros : List String := []
  cons : List String := []
  summary : String := ""
deriving DecidableEq

/-- Product model with all details. -/
structure Product where
  id : String
  title : String
  price : ℚ
  original_price : Option ℚ := none
  currency : String := "USD"
  image_url : Option String := none
  product_url : String
  source : ProductSource
  rating : Option ℚ := none
  review_count : Option ℤ := none
  availability : String := "unknown"
deriving DecidableEq

/-- ProductWithAnalysis: a Product extended with reviews, sentiment and the
four scores. -/
structure ProductWithAnalysis extends Product where
  reviews : List Review := []
  sentiment : Option SentimentAnalysis := none
  value_score : ℚ := 0
  price_score : ℚ := 0
  review_score : ℚ := 0
  quality_score : ℚ := 0
deriving DecidableEq

/-! ## Configuration (app/config.py): scoring weights -/

def PRICE_WEIGHT : ℚ := 35/100

def REVIEW_WEIGHT : ℚ := 35/100

def QUALITY_WEIGHT : ℚ := 30/100

/-! ## Scoring service (app/services/scoring_service.py) -/

/-- ScoringService.calculate_price_score: price score (0-10) where a lower
price gets a higher score via inverse normalization over the frame. -/
def calculate_price_score (price min_price max_price : ℚ) : ℚ :=
  if max_price = min_price then 75/10
  else round2 (min 10 (max 0 ((max_price - price) / (max_price - min_price) * 10)))

/-- Base score block of calculate_review_score: rating scaled to 0-10,
neutral 5.0 when the rating is absent. -/
def review_base_score (rating : Option ℚ) : ℚ :=
  match rating with
  | some r => (r / 5) * 10
  | none => 5

/-- Volume-confidence modifier block of calculate_review_score. -/
def volume_modifier (review_count : Option ℤ) : ℚ :=
  match review_count with
  | some c =>
    if c ≥ 1000 then 115/100
    else if c ≥ 500 then 110/100
    else if c ≥ 100 then 105/100
    else if c ≥ 10 then 1
    else 90/100
  | none => 1

/-- Sentiment adjustment block of calculate_review_score. -/
def sentiment_adjustment (sentiment : Option SentimentAnalysis) : ℚ :=
  match sentiment with
  | some s => s.sentiment_score * (1/2)
  | none => 0

/-- ScoringService.calculate_review_score: review score (0-10) from rating,
review volume and sentiment. -/
def calculate_review_score (rating : Option ℚ) (review_count : Option ℤ)
    (sentiment : Option SentimentAnalysis) : ℚ :=
  round2 (min 10 (max 0
    (review_base_score rating * volume_modifier review_count
      + sentiment_adjustment sentiment)))

/-- Lookup of one quality indicator key in the quality_indicators dict,
modelled as an association list. -/
def qiLookup : List (String × ℚ) → String → Option ℚ
  | [], _ => none
  | (k, v) :: rest, key => if k = key then some v else qiLookup rest key

/-- The list of signal lines collected by calculate_quality_score before
averaging. -/
def quality_signals (sentiment : Option SentimentAnalysis)
    (quality_indicators : Option (List (String × ℚ))) : List ℚ :=
  let sentimentScores : List ℚ :=
    match sentiment with
    | some s =>
      let base := [(s.sentiment_score + 1) * 5]
      if s.pros.length > 0 ∨ s.cons.length > 0 then
        base ++ [((s.pros.length : ℚ) / ((s.pros.length : ℚ) + (s.cons.length : ℚ))) * 10]
      else base
    | none => []
  let indicatorScores : List ℚ :=
    match quality_indicators with
    | some qi =>
      if qi ≠ [] then
        let found := (["durability", "performance", "build_quality",
          "value_for_money"].filterMap (fun k => (qiLookup qi k).map (· * 10)))
        if found ≠ [] then [found.sum / (found.length : ℚ)] else []
      else []
    | none => []
  sentimentScores ++ indicatorScores

/-- ScoringService.calculate_quality_score: quality score (0-10) from
sentiment and quality indicators; neutral 5.0 when no signal is present. -/
def calculate_quality_score (sentiment : Option SentimentAnalysis)
    (quality_indicators : Option (List (String × ℚ))) : ℚ :=
  let scores := quality_signals sentiment quality_indicators
  if scores ≠ [] then round2 (min 10 (max 0 (scores.sum / (scores.length : ℚ))))
  else 5

/-- ScoringService.calculate_value_score: weighted average of the three
scores using the configured weights. -/
def calculate_value_score (price_score review_score quality_score : ℚ) : ℚ :=
  round2 (price_score * PRICE_WEIGHT + review_score * REVIEW_WEIGHT
    + quality_score * QUALITY_WEIGHT)

/-- ScoringService.score_product: compute all four scores for one product. -/
def score_product (product : Product) (min_price max_price : ℚ)
    (reviews : List Review) (sentiment : Option SentimentAnalysis)
    (quality_indicators : Option (List (String × ℚ))) : ProductWithAnalysis :=
  let price_score := calculate_price_score product.price min_price max_price
  let review_score := calculate_review_score product.rating product.review_count sentiment
  let quality_score := calculate_quality_score sentiment quality_indicators
  let value_score := calculate_value_score price_score review_score quality_score
  { toProduct := product
    reviews := reviews
    sentiment := sentiment
    value_score := value_score
    price_score := price_score
    review_score := review_score
    quality_score := quality_score }

/-- ScoringService.score_products: score a list of products relative to each
other and sort descending by value score (a stable sort, as in Python). -/
def score_products (products : List Product)
    (reviews_map : String → List Review)
    (sentiments_map : String → Option SentimentAnalysis)
    (quality_map : Option (String → Option (List (String × ℚ)))) :
    List ProductWithAnalysis :=
  match products with
  | [] => []
  | p :: ps =>
    let min_price := ((p :: ps).map (·.price)).foldl min p.price
    let max_price := ((p :: ps).map (·.price)).foldl max p.price
    let scored := (p :: ps).map (fun prod =>
      score_product prod min_price max_price (reviews_map prod.id)
        (sentiments_map prod.id)
        (match quality_map with
         | some qm => qm prod.id
         | none => none))
    scored.mergeSort (fun a b => decide (b.value_score ≤ a.value_score))

/-- Python max(iterable, key=f) over a nonempty list: a left scan replacing
the current best only on a strictly greater key, so the first maximal
element wins ties. -/
def pymaxAux {α : Type} (f : α → ℚ) (cur : α) : List α → α
  | [] => cur
  | a :: rest => pymaxAux f (if f cur < f a then a else cur) rest

/-- Result record of ScoringService.get_best_products. -/
structure BestProducts where
  best_value : Option ProductWithAnalysis
  best_price : Option ProductWithAnalysis
  best_quality : Option ProductWithAnalysis
deriving DecidableEq

/-- ScoringService.get_best_products: best products by value, price and
quality score; all absent on an empty input. -/
def get_best_products (products : List ProductWithAnalysis) : BestProducts :=
  match products with
  | [] => { best_value := none, best_price := none, best_quality := none }
  | p :: ps =>
    { best_value := some (pymaxAux (·.value_score) p ps)
      best_price := some (pymaxAux (·.price_score) p ps)
      best_quality := some (pymaxAux (·.quality_score) p ps) }

/-! ## Price normalizer (app/utils/price_normalizer.py)

Price strings are embedded as lists of characters. -/

/-- Python str whitespace test, for strip and split. -/
def pyIsSpace (c : Char) : Bool :=
  c = ' ' || c = '\t' || c = '\n' || c = '\r' || c = '\x0b' || c = '\x0c'

/-- Python str.strip(): remove leading and trailing whitespace. -/
def pyStrip (l : List Char) : List Char :=
  ((l.dropWhile pyIsSpace).reverse.dropWhile pyIsSpace).reverse

/-- Case-insensitive test that pat occurs at the start of l. -/
def ciStartsWith (pat l : List Char) : Bool :=
  (pat.map Char.toLower).isPrefixOf (l.map Char.toLower)

/-- Case-insensitive test that pat occurs at the end of l. -/
def ciEndsWith (pat l : List Char) : Bool :=
  ciStartsWith pat.reverse l.reverse

/-- Alternatives of the leading-boilerplate pattern in clean_price_string,
in the order they appear in the alternation. -/
def LEADING_WORDS : List (List Char) :=
  ["from".data, "starting at".data, "price:".data, "now".data]

/-- Alternatives of the trailing-boilerplate pattern in clean_price_string. -/
def TRAILING_WORDS : List (List Char) :=
  ["per unit".data, "each".data, "/ea".data]

/-- Removal of an anchored leading-boilerplate match together with the
whitespace that follows it (case-insensitive). -/
def dropLeadingWords (l : List Char) : List Char :=
  match LEADING_WORDS.find? (fun p => ciStartsWith p l) with
  | some p => (l.drop p.length).dropWhile pyIsSpace
  | none => l

/-- Removal of a trailing-boilerplate match together with the whitespace
that precedes it (case-insensitive). -/
def dropTrailingWords (l : List Char) : List Char :=
  match TRAILING_WORDS.find? (fun p => ciEndsWith p l) with
  | some p =>
    (((l.take (l.length - p.length)).reverse.dropWhile pyIsSpace)).reverse
  | none => l

/-- Splitting on whitespace runs, dropping empty words, as str.split(). -/
def wordsAux : List Char → List Char → List (List Char)
  | cur, [] => if cur = [] then [] else [cur.reverse]
  | cur, c :: rest =>
    if pyIsSpace c then
      if cur = [] then wordsAux [] rest else cur.reverse :: wordsAux [] rest
    else wordsAux (c :: cur) rest

/-- Joining words with single spaces, as the space-join in the code. -/
def joinWords : List (List Char) → List Char
  | [] => []
  | [w] => w
  | w :: ws => w ++ ' ' :: joinWords ws

/-- clean_price_string: strip, remove boilerplate, collapse whitespace. -/
def clean_price_string (price_str : List Char) : List Char :=
  if price_str = [] then []
  else joinWords (wordsAux [] (dropTrailingWords (dropLeadingWords (pyStrip price_str))))

/-- Substring containment test, as the Python in operator on str. -/
def containsSub (pat : List Char) : List Char → Bool
  | [] => pat.isEmpty
  | c :: rest => pat.isPrefixOf (c :: rest) || containsSub pat rest

/-- Fueled worker for replaceAll (fuel bounds the scan length). -/
def replaceAllF (pat : List Char) : ℕ → List Char → List Char
  | _, [] => []
  | 0, l => l
  | fuel + 1, c :: rest =>
    if pat ≠ [] ∧ pat.isPrefixOf (c :: rest) then
      replaceAllF pat fuel ((c :: rest).drop pat.length)
    else c :: replaceAllF pat fuel rest

/-- Python str.replace(pat, ""): delete all non-overlapping occurrences,
scanning left to right. -/
def replaceAll (pat l : List Char) : List Char := replaceAllF pat l.length l

/-- CURRENCY_SYMBOLS, in dict insertion order (the order the detection loop
iterates in). -/
def CURRENCY_SYMBOLS : List (List Char × String) :=
  [("$".data, "USD"), ("€".data, "EUR"), ("£".data, "GBP"), ("¥".data, "JPY"),
   ("₹".data, "INR"), ("C$".data, "CAD"), ("A$".data, "AUD"), ("₽".data, "RUB"),
   ("R$".data, "BRL"), ("₩".data, "KRW")]

/-- The symbol-scanning loop of detect_currency: first symbol contained in
the cleaned string wins; its occurrences are removed and the result
stripped. -/
def symbolDetect : List (List Char × String) → List Char → Option (String × List Char)
  | [], _ => none
  | (sym, code) :: rest, cleaned =>
    if containsSub sym cleaned then some (code, pyStrip (replaceAll sym cleaned))
    else symbolDetect rest cleaned

/-- The ISO codes of the anchored ISO-code pattern in detect_currency. -/
def ISO_CODES : List String :=
  ["USD", "EUR", "GBP", "JPY", "INR", "CAD", "AUD", "RUB", "BRL", "KRW"]

/-- The ISO-code branch of detect_currency: a case-insensitive 3-letter code
at the start, consumed together with the whitespace after it. -/
def isoDetect (cleaned : List Char) : Option (String × List Char) :=
  match ISO_CODES.find? (fun code => ciStartsWith code.data cleaned) with
  | some code =>
    some (code, pyStrip ((cleaned.drop code.data.length).dropWhile pyIsSpace))
  | none => none

/-- detect_currency: detect the currency of a price string and return it
with the remaining text. -/
def detect_currency (price_str : List Char) : String × List Char :=
  let cleaned := clean_price_string price_str
  match symbolDetect CURRENCY_SYMBOLS cleaned with
  | some r => r
  | none =>
    match isoDetect cleaned with
    | some r => r
    | none => ("USD", cleaned)

/-- Characters kept by the first filtering step of parse_numeric_value. -/
def isNumChar (c : Char) : Bool :=
  c.isDigit || c = '.' || c = ',' || c = '-'

/-- Numeric value of a list of decimal digit characters. -/
def digitsToNat (l : List Char) : ℕ :=
  l.foldl (fun a c => a * 10 + (c.toNat - 48)) 0

/-- Optional leading sign consumed by Python float parsing. -/
def pySign : List Char → ℚ × List Char
  | '-' :: r => (-1, r)
  | '+' :: r => (1, r)
  | r => (1, r)

/-- Python float(s) on the strings reachable in parse_numeric_value (digits,
at most one dot, possibly interior minus signs): an optional sign, then
digits with at most one decimal point and at least one digit. -/
def pyFloat (s : List Char) : Option ℚ :=
  let sr := pySign s
  let intPart := sr.2.takeWhile Char.isDigit
  let rest := sr.2.drop intPart.length
  if rest = [] then
    if intPart = [] then none else some (sr.1 * (digitsToNat intPart : ℚ))
  else if rest.head? = some '.' ∧ rest.tail.all Char.isDigit
      ∧ ¬(intPart = [] ∧ rest.tail = []) then
    some (sr.1 * ((digitsToNat intPart : ℚ)
      + (digitsToNat rest.tail : ℚ) / 10 ^ rest.tail.length))
  else none

/-- Application of the sign remembered before the separator analysis. -/
def applyNeg (neg : Bool) (q : ℚ) : ℚ := if neg then -q else q

/-- Test whether the last dot appears after the last comma (the mixed-format
disambiguation of parse_numeric_value); both are assumed present. -/
def lastSepIsDot (l : List Char) : Bool :=
  match l.reverse.find? (fun c => c = '.' || c = ',') with
  | some c => c = '.'
  | none => false

/-- parse_numeric_value: parse a numeric value, disambiguating European and
US decimal and thousands separators. -/
def parse_numeric_value (value_str : List Char) : Option ℚ :=
  if value_str = [] then none
  else
    let cleaned := value_str.filter isNumChar
    if cleaned = [] then none
    else
      let is_negative := cleaned.head? = some '-'
      let cleaned := cleaned.dropWhile (· = '-')
      let comma_count := cleaned.count ','
      let dot_count := cleaned.count '.'
      if comma_count = 0 ∧ dot_count = 0 then
        (pyFloat cleaned).map (applyNeg is_negative)
      else if comma_count = 0 ∧ dot_count = 1 then
        (pyFloat cleaned).map (applyNeg is_negative)
      else if comma_count = 1 ∧ dot_count = 0 then
        let afterComma := (cleaned.dropWhile (· ≠ ',')).drop 1
        let cleaned2 :=
          if afterComma.length = 2 then
            cleaned.map (fun c => if c = ',' then '.' else c)
          else cleaned.filter (· ≠ ',')
        (pyFloat cleaned2).map (applyNeg is_negative)
      else if dot_count ≥ 1 ∧ comma_count ≥ 1 then
        let cleaned2 :=
          if lastSepIsDot cleaned then cleaned.filter (· ≠ ',')
          else (cleaned.filter (· ≠ '.')).map (fun c => if c = ',' then '.' else c)
        (pyFloat cleaned2).map (applyNeg is_negative)
      else
        let cleaned2 := if comma_count > 1 then cleaned.filter (· ≠ ',') else cleaned
        let cleaned3 := if dot_count > 1 then cleaned2.filter (· ≠ '.') else cleaned2
        (pyFloat cleaned3).map (applyNeg is_negative)

/-- EXCHANGE_RATES_TO_USD, the static conversion table. -/
def EXCHANGE_RATES_TO_USD : List (String × ℚ) :=
  [("USD", 1), ("EUR", 108/100), ("GBP", 127/100), ("JPY", 67/10000),
   ("INR", 12/1000), ("CAD", 74/100), ("AUD", 65/100), ("RUB", 11/1000),
   ("BRL", 20/100), ("KRW", 75/100000)]

/-- Rate lookup with the dict.get default of 1.0 for unknown codes. -/
def rateFor : List (String × ℚ) → String → ℚ
  | [], _ => 1
  | (k, v) :: rest, code => if k = code then v else rateFor rest code

/-- normalize_price: normalize a price string to a value in the target
currency (default USD), returning it with the detected source currency. -/
def normalize_price (price_str : List Char) (target_currency : String := "USD") :
    Option ℚ × String :=
  if price_str = [] then (none, "USD")
  else
    let dc := detect_currency price_str
    match parse_numeric_value dc.2 with
    | none => (none, dc.1)
    | some value =>
      let converted :=
        if dc.1 ≠ target_currency then
          value * rateFor EXCHANGE_RATES_TO_USD dc.1
            / rateFor EXCHANGE_RATES_TO_USD target_currency
        else value
      (some (round2 converted), dc.1)

/-! ## Mock data service (app/services/mock_service.py)

The random.uniform(-5, 5) draws consumed by get_mock_products are modelled
as an explicit stream of rationals, indexed by the number of draws made so
far; hash(query) is modelled as an explicit hash function argument. -/

/-- One template entry of the MOCK_PRODUCTS table. -/
structure MockItem where
  title : String
  price : ℚ
  original_price : Option ℚ
  rating : ℚ
  review_count : ℤ
  source : ProductSource
  image_url : String

/-- MOCK_PRODUCTS, in dict insertion order. -/
def MOCK_PRODUCTS : List (String × List MockItem) :=
  [("wireless headphones",
    [{ title := "Sony WH-1000XM5 Wireless Noise Cancelling Headphones",
       price := 348, original_price := some (39999/100), rating := 47/10,
       review_count := 12543, source := .amazon,
       image_url := "https://m.media-amazon.com/images/I/61vJtKbassL._AC_SL1500_.jpg" },
     { title := "Apple AirPods Max - Space Gray",
       price := 449, original_price := some 549, rating := 46/10,
       review_count := 8234, source := .amazon,
       image_url := "https://m.media-amazon.com/images/I/81jNKu5U3lL._AC_SL1500_.jpg" },
     { title := "Bose QuietComfort Ultra Headphones",
       price := 379, original_price := some 429, rating := 45/10,
       review_count := 5621, source := .ebay,
       image_url := "https://m.media-amazon.com/images/I/51QnOIvVm8L._AC_SL1500_.jpg" },
     { title := "Sennheiser Momentum 4 Wireless Headphones",
       price := 29995/100, original_price := some (37995/100), rating := 44/10,
       review_count := 3456, source := .walmart,
       image_url := "https://m.media-amazon.com/images/I/61SUj2aKoEL._AC_SL1500_.jpg" },
     { title := "JBL Tune 760NC Wireless Headphones",
       price := 7995/100, original_price := some (12995/100), rating := 43/10,
       review_count := 7892, source := .walmart,
       image_url := "https://m.media-amazon.com/images/I/61SUj2aKoEL._AC_SL1500_.jpg" }]),
   ("laptop stand",
    [{ title := "Rain Design mStand Laptop Stand - Space Gray",
       price := 499/10, original_price := some (599/10), rating := 47/10,
       review_count := 15234, source := .amazon,
       image_url := "https://m.media-amazon.com/images/I/71-oNMl84VL._AC_SL1500_.jpg" },
     { title := "Twelve South Curve SE Aluminum Laptop Stand",
       price := 5999/100, original_price := some (7999/100), rating := 46/10,
       review_count := 4521, source := .amazon,
       image_url := "https://m.media-amazon.com/images/I/71-oNMl84VL._AC_SL1500_.jpg" },
     { title := "UGREEN Laptop Stand Adjustable Height",
       price := 2999/100, original_price := some (3999/100), rating := 45/10,
       review_count := 8765, source := .ebay,
       image_url := "https://m.media-amazon.com/images/I/71-oNMl84VL._AC_SL1500_.jpg" },
     { title := "Amazon Basics Laptop Stand - Black",
       price := 1999/100, original_price := some (2499/100), rating := 43/10,
       review_count := 23456, source := .walmart,
       image_url := "https://m.media-amazon.com/images/I/71-oNMl84VL._AC_SL1500_.jpg" }]),
   ("default",
    [{ title := "Premium Product A - Top Rated",
       price := 14999/100, original_price := some (19999/100), rating := 48/10,
       review_count := 5432, source := .amazon,
       image_url := "https://via.placeholder.com/300x300?text=Product+A" },
     { title := "Best Value Product B",
       price := 7999/100, original_price := some (9999/100), rating := 45/10,
       review_count := 8765, source := .ebay,
       image_url := "https://via.placeholder.com/300x300?text=Product+B" },
     { title := "Budget-Friendly Product C",
       price := 3999/100, original_price := some (4999/100), rating := 42/10,
       review_count := 12345, source := .walmart,
       image_url := "https://via.placeholder.com/300x300?text=Product+C" },
     { title := "Professional Product D",
       price := 24999/100, original_price := some (29999/100), rating := 46/10,
       review_count := 3456, source := .amazon,
       image_url := "https://via.placeholder.com/300x300?text=Product+D" },
     { title := "Affordable Product E",
       price := 2499/100, original_price := none, rating := 4,
       review_count := 6789, source := .ebay,
       image_url := "https://via.placeholder.com/300x300?text=Product+E" }])]

/-- Python str.title() on the query, used for the title suffix. -/
def pyTitleAux : Bool → List Char → List Char
  | _, [] => []
  | prevAlpha, c :: rest =>
    (if c.isAlpha then (if prevAlpha then c.toLower else c.toUpper) else c)
      :: pyTitleAux c.isAlpha rest

def pyTitle (s : String) : String := String.mk (pyTitleAux false s.data)

/-- The template-selection loop of get_mock_products: the first dict key
contained in the lowercased query wins, else the default templates. -/
def pickMockData (query_lower : List Char) : List MockItem :=
  match (MOCK_PRODUCTS.filter (fun kv => containsSub kv.1.data query_lower)).head? with
  | some kv => kv.2
  | none =>
    match MOCK_PRODUCTS.find? (fun kv => kv.1 = "default") with
    | some kv => kv.2
    | none => []

/-- The enumeration loop of get_mock_products: i is the template index,
count the number of products built so far (which is also the number of
random draws consumed). -/
def buildMocks (hashFn : String → ℤ) (draws : ℕ → ℚ) (query : String)
    (query_lower : List Char) (sources : List ProductSource) (limit : ℕ) :
    ℕ → ℕ → List MockItem → List Product
  | _, _, [] => []
  | i, count, item :: rest =>
    if item.source ∈ sources ∧ count < limit then
      { id := "mock_" ++ item.source.value ++ "_" ++ toString i ++ "_"
          ++ toString (hashFn query % 10000)
        title :=
          if containsSub query_lower (item.title.data.map Char.toLower) then item.title
          else item.title ++ " - " ++ pyTitle query
        price := item.price + draws count
        original_price := item.original_price
        currency := "USD"
        image_url := some item.image_url
        product_url := "https://example.com/product/" ++ toString i
        source := item.source
        rating := some item.rating
        review_count := some item.review_count
        availability := "in_stock" }
        :: buildMocks hashFn draws query query_lower sources limit (i + 1) (count + 1) rest
    else buildMocks hashFn draws query query_lower sources limit (i + 1) count rest

/-- get_mock_products: mock products for a query, filtered by source and
bounded by limit, with a random price perturbation per product. -/
def get_mock_products (hashFn : String → ℤ) (draws : ℕ → ℚ) (query : String)
    (sources : List ProductSource) (limit : ℕ) : List Product :=
  let query_lower := query.data.map Char.toLower
  buildMocks hashFn draws query query_lower sources limit 0 0 (pickMockData query_lower)

/-! ## Score bound lemmas -/

theorem calculate_price_score_bounds (price min_price max_price : ℚ) :
    0 ≤ calculate_price_score price min_price max_price ∧
      calculate_price_score price min_price max_price ≤ 10 := by
  unfold calculate_price_score
  split_ifs
  · norm_num
  · exact ⟨round2_nonneg (clamp_nonneg _), round2_le_ten (clamp_le_ten _)⟩

theorem calculate_review_score_bounds (rating : Option ℚ) (review_count : Option ℤ)
    (sentiment : Option SentimentAnalysis) :
    0 ≤ calculate_review_score rating review_count sentiment ∧
      calculate_review_score rating review_count sentiment ≤ 10 := by
  unfold calculate_review_score
  exact ⟨round2_nonneg (clamp_nonneg _), round2_le_ten (clamp_le_ten _)⟩

theorem calculate_quality_score_bounds (sentiment : Option SentimentAnalysis)
    (quality_indicators : Option (List (String × ℚ))) :
    0 ≤ calculate_quality_score sentiment quality_indicators ∧
      calculate_quality_score sentiment quality_indicators ≤ 10 := by
  simp only [calculate_quality_score]
  split_ifs
  · exact ⟨round2_nonneg (clamp_nonneg _), round2_le_ten (clamp_le_ten _)⟩
  · norm_num

theorem calculate_value_score_bounds {p r q : ℚ}
    (hp : 0 ≤ p ∧ p ≤ 10) (hr : 0 ≤ r ∧ r ≤ 10) (hq : 0 ≤ q ∧ q ≤ 10) :
    0 ≤ calculate_value_score p r q ∧ calculate_value_score p r q ≤ 10 := by
  obtain ⟨hp1, hp2⟩ := hp
  obtain ⟨hr1, hr2⟩ := hr
  obtain ⟨hq1, hq2⟩ := hq
  unfold calculate_value_score PRICE_WEIGHT REVIEW_WEIGHT QUALITY_WEIGHT
  constructor
  · exact round2_nonneg (by linarith)
  · exact round2_le_ten (by linarith)

/-! ## Claim C3: price score over a comparison frame -/

/-- C3: in a comparison frame, identical prices give every candidate exactly
7.5; otherwise the minimum-priced candidate scores 10.0, the maximum-priced
candidate 0.0, and in general the score is (max - price)/(max - min)*10
clamped to [0,10] and rounded to 2 decimals. -/
theorem C3_price_score_frame (price min_price max_price : ℚ) :
    (max_price = min_price → calculate_price_score price min_price max_price = 75/10) ∧
    (min_price < max_price →
      calculate_price_score min_price min_price max_price = 10) ∧
    (min_price < max_price →
      calculate_price_score max_price min_price max_price = 0) ∧
    (min_price < max_price →
      calculate_price_score price min_price max_price
        = round2 (min 10 (max 0 ((max_price - price) / (max_price - min_price) * 10)))) := by
  refine ⟨fun h => ?_, fun h => ?_, fun h => ?_, fun h => ?_⟩
  · simp [calculate_price_score, h]
  · unfold calculate_price_score
    rw [if_neg h.ne']
    have hne : max_price - min_price ≠ 0 := sub_ne_zero.mpr h.ne'
    rw [div_self hne]
    norm_num [round2_ten]
  · unfold calculate_price_score
    rw [if_neg h.ne']
    rw [sub_self, zero_div]
    norm_num [round2_zero]
  · unfold calculate_price_score
    rw [if_neg h.ne']

theorem C3_price_score_frame_witness :
    (1 : ℚ) < 3 ∧ calculate_price_score 1 1 3 = 10 :=
  ⟨by norm_num, (C3_price_score_frame 2 1 3).2.1 (by norm_num)⟩

/-! ## Claim C4: value score monotonicity and fixed points -/

/-- C4: calculate_value_score is monotonically non-decreasing in each of its
three inputs with the other two fixed, and maps (10,10,10) to 10.0,
(0,0,0) to 0.0 and (5,5,5) to 5.0. -/
theorem C4_value_score_monotone :
    (∀ p1 p2 r q : ℚ, p1 ≤ p2 →
      calculate_value_score p1 r q ≤ calculate_value_score p2 r q) ∧
    (∀ r1 r2 p q : ℚ, r1 ≤ r2 →
      calculate_value_score p r1 q ≤ calculate_value_score p r2 q) ∧
    (∀ q1 q2 p r : ℚ, q1 ≤ q2 →
      calculate_value_score p r q1 ≤ calculate_value_score p r q2) ∧
    calculate_value_score 10 10 10 = 10 ∧
    calculate_value_score 0 0 0 = 0 ∧
    calculate_value_score 5 5 5 = 5 := by
  refine ⟨?_, ?_, ?_, ?_, ?_, ?_⟩
  · intro p1 p2 r q h
    unfold calculate_value_score PRICE_WEIGHT
    exact round2_mono (by linarith)
  · intro r1 r2 p q h
    unfold calculate_value_score REVIEW_WEIGHT
    exact round2_mono (by linarith)
  · intro q1 q2 p r h
    unfold calculate_value_score QUALITY_WEIGHT
    exact round2_mono (by linarith)
  · norm_num [calculate_value_score, PRICE_WEIGHT, REVIEW_WEIGHT, QUALITY_WEIGHT,
      round2_ten]
  · norm_num [calculate_value_score, PRICE_WEIGHT, REVIEW_WEIGHT, QUALITY_WEIGHT,
      round2_zero]
  · norm_num [calculate_value_score, PRICE_WEIGHT, REVIEW_WEIGHT, QUALITY_WEIGHT,
      round2, rndHalfEven]

theorem C4_value_score_monotone_witness :
    (1 : ℚ) ≤ 2 ∧ calculate_value_score 1 7 4 ≤ calculate_value_score 2 7 4 :=
  ⟨by norm_num, C4_value_score_monotone.1 1 2 7 4 (by norm_num)⟩

/-! ## Claim C10: absent review count behaves like the [10, 100) bracket -/

/-- C10: an absent review count gets volume modifier exactly 1.0, the same
as any count in [10, 100), so the review score with an absent count equals
the score with any count in that bracket, for every rating and sentiment. -/
theorem C10_absent_review_count (rating : Option ℚ)
    (sentiment : Option SentimentAnalysis) (c : ℤ)
    (h1 : 10 ≤ c) (h2 : c < 100) :
    volume_modifier none = 1 ∧
    calculate_review_score rating none sentiment
      = calculate_review_score rating (some c) sentiment := by
  have hv : volume_modifier (some c) = 1 := by
    simp only [volume_modifier]
    rw [if_neg (by omega), if_neg (by omega), if_neg (by omega), if_pos (by omega)]
  exact ⟨rfl, by unfold calculate_review_score; rw [hv]; rfl⟩

theorem C10_absent_review_count_witness :
    (10 : ℤ) ≤ 50 ∧
    calculate_review_score (some 4) none none
      = calculate_review_score (some 4) (some 50) none :=
  ⟨by norm_num, (C10_absent_review_count (some 4) none 50 (by norm_num) (by norm_num)).2⟩

/-! ## Claim C5: strictness of the review score across volume brackets -/

/-- C5 (counterexample): with rating 5 and no sentiment, a review count in
[10, 100) scores 10 and so does a count in [100, 500) — the upper clamp
makes the scores equal, so the score is not strictly increasing across the
volume thresholds for every fixed rating in [0, 5]. -/
theorem C5_not_strict_counterexample :
    ¬ (calculate_review_score (some 5) (some 50) none
        < calculate_review_score (some 5) (some 200) none) := by
  norm_num [calculate_review_score, review_base_score, volume_modifier,
    sentiment_adjustment, round2, rndHalfEven]

/-- C5 (amended): for every fixed rating in [0.5, 4] and every sentiment
with score in [-1, 1] (or no sentiment), the review score is strictly
increasing as the review count crosses each volume threshold; for ratings
near 0 the brackets can tie at the lower clamp and for ratings near 5 at
the upper clamp, so strictness needs the unclamped scores to stay inside
(0, 10). -/
theorem C5_review_volume_strict (r : ℚ) (s : Option SentimentAnalysis)
    (hr1 : 1/2 ≤ r) (hr2 : r ≤ 4)
    (hs : ∀ x, s = some x → -1 ≤ x.sentiment_score ∧ x.sentiment_score ≤ 1)
    (c0 c1 c2 c3 c4 : ℤ)
    (h0 : c0 < 10) (h1a : 10 ≤ c1) (h1b : c1 < 100)
    (h2a : 100 ≤ c2) (h2b : c2 < 500)
    (h3a : 500 ≤ c3) (h3b : c3 < 1000) (h4 : 1000 ≤ c4) :
    calculate_review_score (some r) (some c0) s
      < calculate_review_score (some r) (some c1) s ∧
    calculate_review_score (some r) (some c1) s
      < calculate_review_score (some r) (some c2) s ∧
    calculate_review_score (some r) (some c2) s
      < calculate_review_score (some r) (some c3) s ∧
    calculate_review_score (some r) (some c3) s
      < calculate_review_score (some r) (some c4) s := by
  have hadj1 : -(1/2) ≤ sentiment_adjustment s := by
    cases s with
    | none => norm_num [sentiment_adjustment]
    | some x =>
      have := (hs x rfl).1
      simp only [sentiment_adjustment]
      linarith
  have hadj2 : sentiment_adjustment s ≤ 1/2 := by
    cases s with
    | none => norm_num [sentiment_adjustment]
    | some x =>
      have := (hs x rfl).2
      simp only [sentiment_adjustment]
      linarith
  have hv0 : volume_modifier (some c0) = 90/100 := by
    simp only [volume_modifier]
    rw [if_neg (by omega), if_neg (by omega), if_neg (by omega), if_neg (by omega)]
  have hv1 : volume_modifier (some c1) = 1 := by
    simp only [volume_modifier]
    rw [if_neg (by omega), if_neg (by omega), if_neg (by omega), if_pos (by omega)]
  have hv2 : volume_modifier (some c2) = 105/100 := by
    simp only [volume_modifier]
    rw [if_neg (by omega), if_neg (by omega), if_pos (by omega)]
  have hv3 : volume_modifier (some c3) = 110/100 := by
    simp only [volume_modifier]
    rw [if_neg (by omega), if_pos (by omega)]
  have hv4 : volume_modifier (some c4) = 115/100 := by
    simp only [volume_modifier]
    rw [if_pos (by omega)]
  have hbase : review_base_score (some r) = r / 5 * 10 := rfl
  unfold calculate_review_score
  rw [hbase, hv0, hv1, hv2, hv3, hv4]
  rw [clamp_eq_self (by linarith) (by linarith),
    clamp_eq_self (by linarith) (by linarith),
    clamp_eq_self (by linarith) (by linarith),
    clamp_eq_self (by linarith) (by linarith),
    clamp_eq_self (by linarith) (by linarith)]
  refine ⟨round2_strict (by linarith), round2_strict (by linarith),
    round2_strict (by linarith), round2_strict (by linarith)⟩

theorem C5_review_volume_strict_witness :
    (1 : ℚ)/2 ≤ 2 ∧
    calculate_review_score (some 2) (some 5) none
      < calculate_review_score (some 2) (some 50) none :=
  ⟨by norm_num,
    (C5_review_volume_strict 2 none (by norm_num) (by norm_num)
      (fun x h => nomatch h) 5 50 200 600 2000 (by norm_num) (by norm_num)
      (by norm_num) (by norm_num) (by norm_num) (by norm_num) (by norm_num)
      (by norm_num)).1⟩

/-! ## Claim C1: the two concrete normalization examples -/

/-- C1 (counterexample): with the default target currency USD, the code
converts the parsed EUR amount into USD (99.50 × 1.08 = 107.46), so
normalize_price on "€99,50" does not return amount 99.50. -/
theorem C1_euro_example_counterexample :
    normalize_price "€99,50".data ≠ (some (199/2), "EUR") := by
  have hd : detect_currency "€99,50".data = ("EUR", "99,50".data) := by rfl
  simp +decide [normalize_price, hd, parse_numeric_value, pyFloat, pySign, digitsToNat,
    applyNeg, rateFor, EXCHANGE_RATES_TO_USD, round2, rndHalfEven]
  norm_num

/-- C1 (amended): with the default target currency USD,
normalize_price("$1,299.99") = (1299.99, "USD"), and
normalize_price("€99,50") = (107.46, "EUR"): the detected currency is EUR
and the returned amount is the parsed 99.50 converted to USD at the static
rate 1.08. -/
theorem C1_concrete_examples :
    normalize_price "$1,299.99".data = (some (129999/100), "USD") ∧
    normalize_price "€99,50".data = (some (10746/100), "EUR") := by
  constructor
  · have hd : detect_currency "$1,299.99".data = ("USD", "1,299.99".data) := by rfl
    simp +decide [normalize_price, hd, parse_numeric_value, pyFloat, pySign, digitsToNat,
      applyNeg, lastSepIsDot, round2, rndHalfEven]
    norm_num
  · have hd : detect_currency "€99,50".data = ("EUR", "99,50".data) := by rfl
    simp +decide [normalize_price, hd, parse_numeric_value, pyFloat, pySign, digitsToNat,
      applyNeg, rateFor, EXCHANGE_RATES_TO_USD, round2, rndHalfEven]
    norm_num

/-! ## Claim C7: detection of the multi-character symbol C$ -/

/-- C7: the claim (and the CURRENCY_SYMBOLS table, which maps "C$" to CAD)
say a "C$" price is detected as CAD with the token fully consumed. The
detection loop iterates in dict insertion order and tests substring
containment, so "$" matches first on any "C$" text: the code returns USD
and leaves the "C" in the remaining text. This theorem evaluates the code
at the failing input "C$89.99". -/
theorem C7_cad_detection_bug :
    detect_currency "C$89.99".data = ("USD", "C89.99".data) ∧
    normalize_price "C$89.99".data = (some (8999/100), "USD") := by
  constructor
  · rfl
  · have hd : detect_currency "C$89.99".data = ("USD", "C89.99".data) := by rfl
    simp +decide [normalize_price, hd, parse_numeric_value, pyFloat, pySign, digitsToNat,
      applyNeg, round2, rndHalfEven]
    norm_num

/-! ## Claim C8: price texts without digits normalize to an absent amount -/

theorem pySign_mem {s : List Char} {c : Char} (hc : c ∈ (pySign s).2) : c ∈ s := by
  unfold pySign at hc
  split at hc
  · exact List.mem_cons_of_mem _ hc
  · exact List.mem_cons_of_mem _ hc
  · exact hc

theorem pyFloat_no_digit {s : List Char} (h : ∀ c ∈ s, c.isDigit = false) :
    pyFloat s = none := by
  have hr : ∀ c ∈ (pySign s).2, c.isDigit = false := fun c hc => h c (pySign_mem hc)
  simp only [pyFloat]
  have htw : (pySign s).2.takeWhile Char.isDigit = [] := by
    cases hsr : (pySign s).2 with
    | nil => rfl
    | cons hd tl =>
      have hhd : hd.isDigit = false := hr hd (by rw [hsr]; exact List.mem_cons_self hd tl)
      simp [List.takeWhile_cons, hhd]
  rw [htw]
  simp only [List.length_nil, List.drop_zero]
  split_ifs with h1 h2
  · rfl
  · obtain ⟨hh, hall, hne⟩ := h2
    exfalso
    cases hsr : (pySign s).2 with
    | nil => exact h1 hsr
    | cons hd tl =>
      rw [hsr] at hh hall hne
      simp only [List.head?_cons, Option.some.injEq] at hh
      cases tl with
      | nil => exact hne (by simp)
      | cons c2 t2 =>
        have hc2 : c2.isDigit = false := hr c2 (by rw [hsr]; right; left)
        simp [List.all_cons, hc2] at hall
  · rfl

theorem no_digit_filter {l : List Char} {p : Char → Bool}
    (h : ∀ c ∈ l, c.isDigit = false) : ∀ c ∈ l.filter p, c.isDigit = false :=
  fun c hc => h c (List.mem_of_mem_filter hc)

theorem no_digit_dropWhile {l : List Char} {p : Char → Bool}
    (h : ∀ c ∈ l, c.isDigit = false) : ∀ c ∈ l.dropWhile p, c.isDigit = false :=
  fun c hc => h c ((List.dropWhile_sublist p).subset hc)

theorem no_digit_commaToDot {l : List Char} (h : ∀ c ∈ l, c.isDigit = false) :
    ∀ c ∈ l.map (fun c => if c = ',' then '.' else c), c.isDigit = false := by
  intro c hc
  rcases List.mem_map.mp hc with ⟨a, ha, rfl⟩
  by_cases h2 : a = ','
  · simp [h2]
  · simp only [if_neg h2]
    exact h a ha

theorem parse_numeric_value_no_digit {l : List Char}
    (h : ∀ c ∈ l, c.isDigit = false) : parse_numeric_value l = none := by
  have hcl : ∀ c ∈ (l.filter isNumChar).dropWhile (· = '-'), c.isDigit = false :=
    no_digit_dropWhile (no_digit_filter h)
  simp only [parse_numeric_value]
  split_ifs
  · rfl
  · rfl
  · rw [pyFloat_no_digit hcl]; rfl
  · rw [pyFloat_no_digit hcl]; rfl
  · rw [pyFloat_no_digit (no_digit_commaToDot hcl)]; rfl
  · rw [pyFloat_no_digit (no_digit_filter hcl)]; rfl
  · rw [pyFloat_no_digit (no_digit_filter hcl)]; rfl
  · rw [pyFloat_no_digit (no_digit_commaToDot (no_digit_filter hcl))]; rfl
  · rw [pyFloat_no_digit (no_digit_filter (no_digit_filter hcl))]; rfl
  · rw [pyFloat_no_digit (no_digit_filter hcl)]; rfl
  · rw [pyFloat_no_digit (no_digit_filter hcl)]; rfl
  · rw [pyFloat_no_digit hcl]; rfl

theorem mem_pyStrip {l : List Char} {c : Char} (hc : c ∈ pyStrip l) : c ∈ l := by
  unfold pyStrip at hc
  rw [List.mem_reverse] at hc
  have h1 := (List.dropWhile_sublist pyIsSpace).subset hc
  rw [List.mem_reverse] at h1
  exact (List.dropWhile_sublist pyIsSpace).subset h1

theorem mem_dropLeadingWords {l : List Char} {c : Char}
    (hc : c ∈ dropLeadingWords l) : c ∈ l := by
  unfold dropLeadingWords at hc
  split at hc
  · exact (List.drop_sublist _ l).subset ((List.dropWhile_sublist pyIsSpace).subset hc)
  · exact hc

theorem mem_dropTrailingWords {l : List Char} {c : Char}
    (hc : c ∈ dropTrailingWords l) : c ∈ l := by
  unfold dropTrailingWords at hc
  split at hc
  · rw [List.mem_reverse] at hc
    have h1 := (List.dropWhile_sublist pyIsSpace).subset hc
    rw [List.mem_reverse] at h1
    exact (List.take_sublist _ l).subset h1
  · exact hc

theorem mem_wordsAux {c : Char} :
    ∀ (l cur : List Char) (w : List Char), w ∈ wordsAux cur l → c ∈ w →
      c ∈ cur ∨ c ∈ l := by
  intro l
  induction l with
  | nil =>
    intro cur w hw hc
    unfold wordsAux at hw
    split at hw
    · exact absurd hw (List.not_mem_nil w)
    · rw [List.mem_singleton] at hw
      subst hw
      rw [List.mem_reverse] at hc
      exact Or.inl hc
  | cons hd tl ih =>
    intro cur w hw hc
    unfold wordsAux at hw
    split_ifs at hw with hsp hcur
    · rcases ih [] w hw hc with h1 | h1
      · exact absurd h1 (List.not_mem_nil c)
      · exact Or.inr (List.mem_cons_of_mem hd h1)
    · rcases List.mem_cons.mp hw with h1 | h1
      · subst h1
        rw [List.mem_reverse] at hc
        exact Or.inl hc
      · rcases ih [] w h1 hc with h2 | h2
        · exact absurd h2 (List.not_mem_nil c)
        · exact Or.inr (List.mem_cons_of_mem hd h2)
    · rcases ih (hd :: cur) w hw hc with h1 | h1
      · rcases List.mem_cons.mp h1 with h2 | h2
        · subst h2
          exact Or.inr (List.mem_cons_self c tl)
        · exact Or.inl h2
      · exact Or.inr (List.mem_cons_of_mem hd h1)

theorem mem_joinWords {c : Char} :
    ∀ ws : List (List Char), c ∈ joinWords ws → c = ' ' ∨ ∃ w ∈ ws, c ∈ w := by
  intro ws
  induction ws with
  | nil =>
    intro hc
    exact absurd hc (List.not_mem_nil c)
  | cons w rest ih =>
    intro hc
    cases rest with
    | nil =>
      exact Or.inr ⟨w, List.mem_singleton_self w, hc⟩
    | cons w2 r2 =>
      have hj : joinWords (w :: w2 :: r2) = w ++ ' ' :: joinWords (w2 :: r2) := rfl
      rw [hj, List.mem_append] at hc
      rcases hc with h1 | h1
      · exact Or.inr ⟨w, List.mem_cons_self w (w2 :: r2), h1⟩
      · rcases List.mem_cons.mp h1 with h2 | h2
        · exact Or.inl h2
        · rcases ih h2 with h3 | ⟨w3, hw3, hcw3⟩
          · exact Or.inl h3
          · exact Or.inr ⟨w3, List.mem_cons_of_mem w hw3, hcw3⟩

theorem mem_clean_price_string {l : List Char} {c : Char}
    (hc : c ∈ clean_price_string l) : c = ' ' ∨ c ∈ l := by
  unfold clean_price_string at hc
  split_ifs at hc with hl
  · exact absurd hc (List.not_mem_nil c)
  · rcases mem_joinWords _ hc with h1 | ⟨w, hw, hcw⟩
    · exact Or.inl h1
    · rcases mem_wordsAux _ [] w hw hcw with h2 | h2
      · exact absurd h2 (List.not_mem_nil c)
      · exact Or.inr (mem_pyStrip (mem_dropLeadingWords (mem_dropTrailingWords h2)))

theorem mem_replaceAllF {pat : List Char} {c : Char} :
    ∀ (fuel : ℕ) (l : List Char), c ∈ replaceAllF pat fuel l → c ∈ l := by
  intro fuel
  induction fuel with
  | zero =>
    intro l hc
    cases l with
    | nil => exact hc
    | cons hd tl => exact hc
  | succ n ih =>
    intro l hc
    cases l with
    | nil => exact hc
    | cons hd tl =>
      rw [replaceAllF] at hc
      split_ifs at hc
      · exact (List.drop_sublist _ _).subset (ih _ hc)
      · rcases List.mem_cons.mp hc with h1 | h1
        · subst h1
          exact List.mem_cons_self c tl
        · exact List.mem_cons_of_mem hd (ih tl h1)

theorem mem_replaceAll {pat l : List Char} {c : Char}
    (hc : c ∈ replaceAll pat l) : c ∈ l :=
  mem_replaceAllF l.length l hc

theorem mem_symbolDetect {cleaned rest : List Char} {code : String} {c : Char} :
    ∀ syms : List (List Char × String),
      symbolDetect syms cleaned = some (code, rest) → c ∈ rest → c ∈ cleaned := by
  intro syms
  induction syms with
  | nil =>
    intro h _
    exact absurd h (by simp [symbolDetect])
  | cons s ss ih =>
    intro h hc
    rw [symbolDetect] at h
    split_ifs at h
    · rw [Option.some.injEq, Prod.mk.injEq] at h
      rw [← h.2] at hc
      exact mem_replaceAll (mem_pyStrip hc)
    · exact ih h hc

theorem mem_isoDetect {cleaned rest : List Char} {code : String} {c : Char}
    (h : isoDetect cleaned = some (code, rest)) (hc : c ∈ rest) : c ∈ cleaned := by
  unfold isoDetect at h
  split at h
  · rw [Option.some.injEq, Prod.mk.injEq] at h
    rw [← h.2] at hc
    exact (List.drop_sublist _ _).subset
      ((List.dropWhile_sublist pyIsSpace).subset (mem_pyStrip hc))
  · exact absurd h (by simp)

theorem mem_detect_currency {l : List Char} {c : Char}
    (hc : c ∈ (detect_currency l).2) : c = ' ' ∨ c ∈ l := by
  simp only [detect_currency] at hc
  rcases hsym : symbolDetect CURRENCY_SYMBOLS (clean_price_string l) with _ | r1
  · rw [hsym] at hc
    rcases hiso : isoDetect (clean_price_string l) with _ | r2
    · rw [hiso] at hc
      exact mem_clean_price_string hc
    · rw [hiso] at hc
      obtain ⟨code, rest⟩ := r2
      exact mem_clean_price_string (mem_isoDetect hiso hc)
  · rw [hsym] at hc
    obtain ⟨code, rest⟩ := r1
    exact mem_clean_price_string (mem_symbolDetect CURRENCY_SYMBOLS hsym hc)

/-- C8: for every price text with no digit characters (the empty string,
pure words like "Free", bare separators), normalize_price returns an absent
amount as its first component, for every target currency. -/
theorem C8_no_digits_absent (price_str : List Char) (target : String)
    (h : ∀ c ∈ price_str, c.isDigit = false) :
    (normalize_price price_str target).1 = none := by
  by_cases hl : price_str = []
  · subst hl
    rfl
  · have hd : ∀ c ∈ (detect_currency price_str).2, c.isDigit = false := by
      intro c hc
      rcases mem_detect_currency hc with hsp | hmem
      · subst hsp
        rfl
      · exact h c hmem
    simp only [normalize_price]
    rw [if_neg hl, parse_numeric_value_no_digit hd]

theorem C8_no_digits_absent_witness :
    (∀ c ∈ "Free".data, c.isDigit = false) ∧
    (normalize_price "Free".data "USD").1 = none :=
  ⟨by decide, C8_no_digits_absent "Free".data "USD" (by decide)⟩

/-! ## Claim C6: get_best_products -/

theorem pymaxAux_spec {α : Type} (f : α → ℚ) :
    ∀ (l : List α) (cur : α),
      (pymaxAux f cur l = cur ∧ ∀ x ∈ l, f x ≤ f cur) ∨
      (∃ l1 l2, l = l1 ++ pymaxAux f cur l :: l2 ∧
        f cur < f (pymaxAux f cur l) ∧
        (∀ x ∈ l1, f x < f (pymaxAux f cur l)) ∧
        (∀ x ∈ l2, f x ≤ f (pymaxAux f cur l))) := by
  intro l
  induction l with
  | nil =>
    intro cur
    exact Or.inl ⟨rfl, by intro x hx; exact absurd hx (List.not_mem_nil x)⟩
  | cons a rest ih =>
    intro cur
    by_cases hlt : f cur < f a
    · have hstep : pymaxAux f cur (a :: rest) = pymaxAux f a rest := by
        rw [pymaxAux, if_pos hlt]
      rcases ih a with ⟨hm, hall⟩ | ⟨l1, l2, heq, hcur, hbefore, hafter⟩
      · refine Or.inr ⟨[], rest, ?_, ?_, ?_, ?_⟩
        · rw [hstep, hm]; rfl
        · rw [hstep, hm]; exact hlt
        · intro x hx; exact absurd hx (List.not_mem_nil x)
        · intro x hx; rw [hstep, hm]; exact hall x hx
      · refine Or.inr ⟨a :: l1, l2, ?_, ?_, ?_, ?_⟩
        · rw [hstep, List.cons_append]
          exact congrArg (a :: ·) heq
        · rw [hstep]; exact lt_trans hlt hcur
        · intro x hx
          rcases List.mem_cons.mp hx with h1 | h1
          · subst h1; rw [hstep]; exact hcur
          · rw [hstep]; exact hbefore x h1
        · intro x hx; rw [hstep]; exact hafter x hx
    · have hstep : pymaxAux f cur (a :: rest) = pymaxAux f cur rest := by
        rw [pymaxAux, if_neg hlt]
      push_neg at hlt
      rcases ih cur with ⟨hm, hall⟩ | ⟨l1, l2, heq, hcur, hbefore, hafter⟩
      · refine Or.inl ⟨by rw [hstep, hm], ?_⟩
        intro x hx
        rcases List.mem_cons.mp hx with h1 | h1
        · subst h1; exact hlt
        · exact hall x h1
      · refine Or.inr ⟨a :: l1, l2, ?_, ?_, ?_, ?_⟩
        · rw [hstep, List.cons_append]
          exact congrArg (a :: ·) heq
        · rw [hstep]; exact hcur
        · intro x hx
          rcases List.mem_cons.mp hx with h1 | h1
          · subst h1; rw [hstep]; exact lt_of_le_of_lt hlt hcur
          · rw [hstep]; exact hbefore x h1
        · intro x hx; rw [hstep]; exact hafter x hx

/-- The Python max-by-key scan over a nonempty list returns the first
element attaining the maximum key: everything before it is strictly
smaller, everything after it is no larger. -/
theorem pymax_first_max {α : Type} (f : α → ℚ) (x : α) (xs : List α) :
    ∃ l1 l2, x :: xs = l1 ++ pymaxAux f x xs :: l2 ∧
      (∀ y ∈ l1, f y < f (pymaxAux f x xs)) ∧
      (∀ y ∈ l2, f y ≤ f (pymaxAux f x xs)) := by
  rcases pymaxAux_spec f xs x with ⟨hm, hall⟩ | ⟨l1, l2, heq, hcur, hbefore, hafter⟩
  · refine ⟨[], xs, ?_, ?_, ?_⟩
    · rw [hm]; rfl
    · intro y hy; exact absurd hy (List.not_mem_nil y)
    · intro y hy; rw [hm]; exact hall y hy
  · refine ⟨x :: l1, l2, ?_, ?_, ?_⟩
    · rw [List.cons_append]
      exact congrArg (x :: ·) heq
    · intro y hy
      rcases List.mem_cons.mp hy with h1 | h1
      · subst h1; exact hcur
      · exact hbefore y h1
    · exact hafter

/-- C6: get_best_products on an empty list returns all three bests absent;
on a nonempty list each best is present, is a member of the input, attains
the maximum of its respective score, and on ties is the first such element
in input order (everything before it scores strictly less, everything
after it no more). -/
theorem C6_get_best_products (l : List ProductWithAnalysis) :
    (l = [] → get_best_products l
      = { best_value := none, best_price := none, best_quality := none }) ∧
    (l ≠ [] → ∃ bv bp bq,
      get_best_products l
        = { best_value := some bv, best_price := some bp, best_quality := some bq } ∧
      (∃ l1 l2, l = l1 ++ bv :: l2 ∧
        (∀ x ∈ l1, x.value_score < bv.value_score) ∧
        (∀ x ∈ l2, x.value_score ≤ bv.value_score)) ∧
      (∃ l1 l2, l = l1 ++ bp :: l2 ∧
        (∀ x ∈ l1, x.price_score < bp.price_score) ∧
        (∀ x ∈ l2, x.price_score ≤ bp.price_score)) ∧
      (∃ l1 l2, l = l1 ++ bq :: l2 ∧
        (∀ x ∈ l1, x.quality_score < bq.quality_score) ∧
        (∀ x ∈ l2, x.quality_score ≤ bq.quality_score))) := by
  constructor
  · intro h
    subst h
    rfl
  · intro h
    cases l with
    | nil => exact absurd rfl h
    | cons x xs =>
      refine ⟨pymaxAux (·.value_score) x xs, pymaxAux (·.price_score) x xs,
        pymaxAux (·.quality_score) x xs, rfl, ?_, ?_, ?_⟩
      · exact pymax_first_max (·.value_score) x xs
      · exact pymax_first_max (·.price_score) x xs
      · exact pymax_first_max (·.quality_score) x xs

theorem C6_get_best_products_witness :
    get_best_products []
      = { best_value := none, best_price := none, best_quality := none } :=
  (C6_get_best_products []).1 rfl

/-! ## Claim C2: every scored candidate has all scores in [0, 10] and the
weighted value equation -/

/-- C2: every ScoredCandidate produced by score_products (with ratings in
[0,5], sentiment scores in [-1,1] and quality indicators in [0,1], prices
arbitrary) has price, review, quality and value scores all in [0, 10], and
its value score equals price*0.35 + review*0.35 + quality*0.30 rounded to
2 decimals. -/
theorem C2_scored_bounds (products : List Product)
    (reviews_map : String → List Review)
    (sentiments_map : String → Option SentimentAnalysis)
    (quality_map : Option (String → Option (List (String × ℚ))))
    (_hrating : ∀ p ∈ products, ∀ r, p.rating = some r → 0 ≤ r ∧ r ≤ 5)
    (_hsent : ∀ id x, sentiments_map id = some x →
      -1 ≤ x.sentiment_score ∧ x.sentiment_score ≤ 1)
    (_hqual : ∀ qm, quality_map = some qm → ∀ id li, qm id = some li →
      ∀ kv ∈ li, 0 ≤ kv.2 ∧ kv.2 ≤ 1) :
    ∀ sp ∈ score_products products reviews_map sentiments_map quality_map,
      (0 ≤ sp.price_score ∧ sp.price_score ≤ 10) ∧
      (0 ≤ sp.review_score ∧ sp.review_score ≤ 10) ∧
      (0 ≤ sp.quality_score ∧ sp.quality_score ≤ 10) ∧
      (0 ≤ sp.value_score ∧ sp.value_score ≤ 10) ∧
      sp.value_score = round2 (sp.price_score * (35/100)
        + sp.review_score * (35/100) + sp.quality_score * (30/100)) := by
  intro sp hsp
  cases products with
  | nil => exact absurd hsp (by simp [score_products])
  | cons p ps =>
    simp only [score_products] at hsp
    rw [(List.mergeSort_perm _ _).mem_iff] at hsp
    rcases List.mem_map.mp hsp with ⟨prod, hprod, hsp⟩
    subst hsp
    refine ⟨calculate_price_score_bounds _ _ _,
      calculate_review_score_bounds _ _ _,
      calculate_quality_score_bounds _ _,
      calculate_value_score_bounds (calculate_price_score_bounds _ _ _)
        (calculate_review_score_bounds _ _ _)
        (calculate_quality_score_bounds _ _), ?_⟩
    rfl

/-- Sample inputs for the witness of the scoring-bounds claim. -/
def sampleProduct : Product :=
  { id := "p1", title := "sample", price := 5, product_url := "u",
    source := .amazon }

def sampleScored : ProductWithAnalysis :=
  score_product sampleProduct 5 5 [] none none

theorem C2_scored_bounds_witness :
    (0 ≤ sampleScored.price_score ∧ sampleScored.price_score ≤ 10) ∧
    (0 ≤ sampleScored.review_score ∧ sampleScored.review_score ≤ 10) ∧
    (0 ≤ sampleScored.quality_score ∧ sampleScored.quality_score ≤ 10) ∧
    (0 ≤ sampleScored.value_score ∧ sampleScored.value_score ≤ 10) ∧
    sampleScored.value_score = round2 (sampleScored.price_score * (35/100)
      + sampleScored.review_score * (35/100)
      + sampleScored.quality_score * (30/100)) := by
  have hmem : sampleScored ∈
      score_products [sampleProduct] (fun _ => []) (fun _ => none) none := by
    simp [score_products, sampleScored, sampleProduct]
  exact C2_scored_bounds [sampleProduct] (fun _ => []) (fun _ => none) none
    (by
      intro p hp r hr
      rw [List.mem_singleton] at hp
      subst hp
      simp [sampleProduct] at hr)
    (fun id x hx => nomatch hx)
    (fun qm hqm => nomatch hqm)
    sampleScored hmem

/-! ## Claim C9: determinism of the synthetic fallback products -/

/-- C9 (counterexample): get_mock_products adds random.uniform(-5, 5) to
every price (modelled as the draw stream), so two calls with the same
query, sources and limit need not return the same prices: with draws 0 and
draws 1 the price lists differ. This refutes determinism of the full
product list. -/
theorem C9_not_deterministic_counterexample :
    ¬ (∀ d1 d2 : ℕ → ℚ,
        (∀ n, -5 ≤ d1 n ∧ d1 n ≤ 5) → (∀ n, -5 ≤ d2 n ∧ d2 n ≤ 5) →
        get_mock_products (fun _ => 0) d1 "gadget"
            [ProductSource.amazon, ProductSource.ebay, ProductSource.walmart] 5
          = get_mock_products (fun _ => 0) d2 "gadget"
            [ProductSource.amazon, ProductSource.ebay, ProductSource.walmart] 5) := by
  intro h
  have heq := h (fun _ => 0) (fun _ => 1)
    (by intro n; norm_num) (by intro n; norm_num)
  have hp := congrArg (List.map (·.price)) heq
  simp +decide [get_mock_products, pickMockData, MOCK_PRODUCTS, buildMocks,
    containsSub] at hp

theorem buildMocks_id_title {hashFn : String → ℤ} {d1 d2 : ℕ → ℚ}
    {query : String} {query_lower : List Char} {sources : List ProductSource}
    {limit : ℕ} :
    ∀ (items : List MockItem) (i count : ℕ),
      (buildMocks hashFn d1 query query_lower sources limit i count items).map
          (fun p => (p.id, p.title))
        = (buildMocks hashFn d2 query query_lower sources limit i count items).map
          (fun p => (p.id, p.title)) := by
  intro items
  induction items with
  | nil => intro i count; rfl
  | cons item rest ih =>
    intro i count
    rw [buildMocks, buildMocks]
    split_ifs
    all_goals try simp only [List.map_cons]
    all_goals rw [ih]

/-- C9 (amended): the synthetic fallback is deterministic in ids and titles
— for fixed query, sources, limit (and fixed process hash) two calls agree
on the id and title of every generated product, in the same order — but
each price carries an added uniform random draw from [-5, 5], so prices
need not repeat across calls. -/
theorem C9_deterministic_ids_titles (hashFn : String → ℤ) (d1 d2 : ℕ → ℚ)
    (query : String) (sources : List ProductSource) (limit : ℕ) :
    (get_mock_products hashFn d1 query sources limit).map (fun p => (p.id, p.title))
      = (get_mock_products hashFn d2 query sources limit).map (fun p => (p.id, p.title)) := by
  unfold get_mock_products
  exact buildMocks_id_title _ 0 0

end PriceAnalyzer
